import Mathlib

/-!
Verification development for the STF single-header test framework (`stf.h`).

The embedding models the two classes of the header:

* `AutomatedTestInstance` (a test suite): an ordered list of named test
  cases, a parallel list of outcomes, a failed flag, a `stringstream` log
  buffer, the index of the currently running test, plus the process
  standard-error stream that the assertion helpers write to.
* `AutomationTester` (the registry): an associative container mapping suite
  names to suite factories, with a driver that runs every suite.

A test-case action is modelled as a function over the assertion-visible run
state (failed flag, log stream, standard error), receiving the list of case
names and the current running index read-only; this matches the data model
in which an action is a zero-argument callable that performs assertions
through `TestTrue` / `TestFalse` / `TestEqual` and writes to streams.

The C++ `assert` macro is modelled as follows: where a failed assert makes
the surrounding operation abort the process, the operation returns `none`
(or `Except.error` for the debug-build model of `TestEqual`).  C++ floats
are modelled as exact rationals; the binary32 values reachable here are all
exactly representable and every arithmetic step performed on them
(subtraction of nearby representables, `glm::abs`, comparison) is exact, so
only the decimal-literal-to-binary32 rounding needs an explicit model
(`rne` / `toFloat32unit` below).
-/

/-- Outcome of a test case, from `enum class ETestStatus` in `stf.h`. -/
inductive ETestStatus where
  | NOT_TESTED : ETestStatus
  | PASSED : ETestStatus
  | FAILED : ETestStatus
deriving DecidableEq

/-- State of the `std::stringstream _log` member: its character buffer and
whether its iostate is good.  `str()` reads the buffer; `clear()` resets
the iostate to `goodbit` and does not touch the buffer. -/
structure LogStream where
  buffer : String
  good : Bool
deriving DecidableEq

/-- The part of a suite that an assertion can read or write while a case
action runs: the `_failed` flag, the `_log` stream, and the process
standard-error stream that `TestEqual` prints diagnostics to. -/
structure RunState where
  failed : Bool
  log : LogStream
  cerr : String
deriving DecidableEq

/-- A test-case action: a closure that performs assertions.  It receives
the list of case names (`GetTestNames()`) and the current running index
(`GetCurrentRunningTest()`) read-only, and transforms the run state. -/
def TestAction : Type := List String → Int → RunState → RunState

/-- State of one `AutomatedTestInstance`: `_tests` (name and action, in
declaration order), `_testStatus` (parallel outcomes), the run state, and
`_currentRunningTest`. -/
structure SuiteState where
  tests : List (String × TestAction)
  testStatus : List ETestStatus
  run : RunState
  currentRunningTest : Int

/-- A freshly constructed run state: `_failed{}` is false, `_log` is an
empty good stream, nothing written to standard error yet. -/
def initRun : RunState := ⟨false, ⟨"", true⟩, ""⟩

/-- A freshly constructed `AutomatedTestInstance`: empty case list, empty
outcome list, `_currentRunningTest = -1`. -/
def initSuite : SuiteState := ⟨[], [], initRun, -1⟩

/-- The `TEXT_RED` escape sequence `"\033[31m"` from `stf.h`. -/
def TEXT_RED : String := "\u001b[31m"

/-- `ENDLINE` is the single character `0x0a`. -/
def ENDLINE : String := "\n"

/-- `std::numeric_limits<float>().epsilon()`, the default epsilon of
`__floatsAlmostSame`: FLT_EPSILON, exactly `2 ^ (-23)`. -/
def float_epsilon : ℚ := 1 / 2 ^ 23

/-- `__floatsAlmostSame(a, b, epsilon)` from `stf.h`:
`glm::abs(a - b) < epsilon`.  The subtraction of the nearby binary32
values used here is exact, so rational arithmetic models it exactly. -/
def floatsAlmostSame (a b epsilon : ℚ) : Bool := decide (|a - b| < epsilon)

/-- `GetTestNames()[cur]`: vector indexing by the signed current index.
Out-of-range indexing is undefined behaviour in C++; this model returns
the empty string there, and no theorem below depends on that branch. -/
def nameAt (names : List String) (cur : Int) : String := names.getD cur.toNat ""

/-- The diagnostic text each `TestEqual` overload writes to `std::cerr` on
a mismatch: `"In:" << name << TEXT_RED << ENDLINE << "Expected value to be "
<< expected << " but it was " << value << ENDLINE << ENDLINE`. -/
def eqMsg (names : List String) (cur : Int) (expected value : String) : String :=
  "In:" ++ nameAt names cur ++ TEXT_RED ++ ENDLINE ++
    "Expected value to be " ++ expected ++ " but it was " ++ value ++ ENDLINE ++ ENDLINE

/-- `TestTrue(expression)`: if the expression is false, set `_failed`;
return the expression.  Never writes any stream, never aborts. -/
def TestTrue (expression : Bool) (r : RunState) : Bool × RunState :=
  if !expression then (expression, {r with failed := true}) else (expression, r)

/-- `TestFalse(expression)`: if the expression is true, set `_failed`;
return the expression.  Never writes any stream, never aborts. -/
def TestFalse (expression : Bool) (r : RunState) : Bool × RunState :=
  if expression then (expression, {r with failed := true}) else (expression, r)

/-- `TestEqual(int value, int expected)` in a build with `NDEBUG` defined,
so that its `assert(false)` is a no-op: on mismatch it writes one
diagnostic to `std::cerr`, sets `_failed`, and returns false; on equality
it returns true.  It never touches the `_log` buffer. -/
def TestEqualInt (names : List String) (cur : Int) (value expected : Int)
    (r : RunState) : Bool × RunState :=
  if value = expected then (true, r)
  else (false, {r with
    failed := true,
    cerr := r.cerr ++ eqMsg names cur (toString expected) (toString value)})

/-- `TestEqual(unsigned int value, unsigned int expected)` with `NDEBUG`
defined; same shape as the signed overload. -/
def TestEqualUInt (names : List String) (cur : Int) (value expected : ℕ)
    (r : RunState) : Bool × RunState :=
  if value = expected then (true, r)
  else (false, {r with
    failed := true,
    cerr := r.cerr ++ eqMsg names cur (toString expected) (toString value)})

/-- `TestEqual(float value, float expected)` with `NDEBUG` defined; the
comparison is `__floatsAlmostSame(value, expected)` with its default
epsilon.  The numeric rendering in the diagnostic is abstracted as the
`toString` of the exact rational; no theorem depends on that text. -/
def TestEqualFloat (names : List String) (cur : Int) (value expected : ℚ)
    (r : RunState) : Bool × RunState :=
  if floatsAlmostSame value expected float_epsilon then (true, r)
  else (false, {r with
    failed := true,
    cerr := r.cerr ++ eqMsg names cur (toString expected) (toString value)})

/-- `TestEqual(int value, int expected)` in a build with asserts enabled
(`NDEBUG` not defined, the default): on mismatch it writes the diagnostic,
sets `_failed`, and then executes `assert(false)`, which aborts the
process; the `return false` after the assert is unreachable.  The abort is
modelled as `Except.error` carrying the run state at the abort point. -/
def TestEqualIntDbg (names : List String) (cur : Int) (value expected : Int)
    (r : RunState) : Except RunState (Bool × RunState) :=
  if value = expected then Except.ok (true, r)
  else Except.error {r with
    failed := true,
    cerr := r.cerr ++ eqMsg names cur (toString expected) (toString value)}

/-- Whether the debug-build `TestEqual` aborted the process. -/
def isAbort (x : Except RunState (Bool × RunState)) : Bool :=
  match x with
  | Except.error _ => true
  | Except.ok _ => false

/-- `GetTestNames()`: the case names in declaration order. -/
def GetTestNames (s : SuiteState) : List String := s.tests.map Prod.fst

/-- `std::find_if` over `_tests` together with `std::distance`: the first
case whose name equals `name`, paired with its index.  `k` is the index of
the head of the remaining list. -/
def findCase (name : String) : List (String × TestAction) → ℕ → Option (ℕ × (String × TestAction))
  | [], _ => none
  | tc :: rest, k => if tc.1 = name then some (k, tc) else findCase name rest (k + 1)

/-- `ResetFlags()`: `_failed = false; _currentRunningTest = -1`. -/
def ResetFlags (s : SuiteState) : SuiteState :=
  {s with run := {s.run with failed := false}, currentRunningTest := -1}

/-- `RunTest(name)`: reset the flags, look the case up by name, abort
(`assert(found != _tests.end())`) when absent — modelled as `none`; with
asserts disabled this path dereferences the end iterator, which has no
defined result either.  Otherwise set `_currentRunningTest` to the found
index, invoke the action, record the outcome at that index, and return the
negation of `_failed`. -/
def RunTest (s₀ : SuiteState) (name : String) : Option (SuiteState × Bool) :=
  let s := ResetFlags s₀
  match findCase name s.tests 0 with
  | none => none
  | some (i, tc) =>
    let r := tc.2 (GetTestNames s) (i : Int) s.run
    some ({s with
      currentRunningTest := (i : Int),
      run := r,
      testStatus := s.testStatus.set i
        (if r.failed then ETestStatus.FAILED else ETestStatus.PASSED)}, !r.failed)

/-- The loop body of `RunAll()`: for each remaining case name, call
`ResetFlags()` and then `RunTest`, accumulating how many returned true. -/
def runAllGo : SuiteState → List String → ℕ → Option (SuiteState × ℕ)
  | s, [], passed => some (s, passed)
  | s, n :: rest, passed =>
    match RunTest (ResetFlags s) n with
    | none => none
    | some (s', b) => runAllGo s' rest (passed + (if b then 1 else 0))

/-- `RunAll()`: run every declared case in declaration order and return
whether the number of passing cases equals the number of cases. -/
def RunAll (s : SuiteState) : Option (SuiteState × Bool) :=
  match runAllGo s (GetTestNames s) 0 with
  | none => none
  | some (s', passed) => some (s', passed == s'.tests.length)

/-- The lookup loop of `GetResult(name)`: walk `_tests` and the parallel
`_testStatus` together; on the first name match return the status.  The
C++ function falls off its end without returning a value when the name is
absent (and indexes `_testStatus` out of range when the lists disagree);
both undefined paths are modelled as `none`. -/
def getResultGo : List (String × TestAction) → List ETestStatus → String → Option ETestStatus
  | [], _, _ => none
  | _ :: _, [], _ => none
  | tc :: ts, st :: sts, name =>
    if tc.1 = name then some st else getResultGo ts sts name

/-- `GetResult(name)` as a total function. -/
def GetResult (s : SuiteState) (name : String) : Option ETestStatus :=
  getResultGo s.tests s.testStatus name

/-- `GetResults()`. -/
def GetResults (s : SuiteState) : List ETestStatus := s.testStatus

/-- `TestCase(name, testFunc)`: abort (`assert`) when a case with the same
name already exists or when `_tests.size()` has reached
`std::numeric_limits<signed int>::max()`; otherwise append the case with
outcome `NOT_TESTED`. -/
def TestCase (s : SuiteState) (name : String) (testFunc : TestAction) : Option SuiteState :=
  if s.tests.any (fun tc => tc.1 == name) then none
  else if s.tests.length < 2147483647 then
    some {s with
      tests := s.tests ++ [(name, testFunc)],
      testStatus := s.testStatus ++ [ETestStatus.NOT_TESTED]}
  else none

/-- Declaring a list of cases in order, as a `Define()` body does. -/
def mkSuiteGo : SuiteState → List (String × TestAction) → Option SuiteState
  | s, [] => some s
  | s, d :: ds =>
    match TestCase s d.1 d.2 with
    | none => none
    | some s' => mkSuiteGo s' ds

/-- A fresh suite whose `Define()` declares the given cases in order. -/
def mkSuite (decls : List (String × TestAction)) : Option SuiteState :=
  mkSuiteGo initSuite decls

/-- `GetCurrentRunningTest()`. -/
def GetCurrentRunningTest (s : SuiteState) : Int := s.currentRunningTest

/-- `GetLog()`: `_log.str()`, the accumulated buffer of the stream. -/
def GetLog (s : SuiteState) : String := s.run.log.buffer

/-- `ResetLog()`: `_log.clear()`.  `std::basic_ios::clear()` called with no
argument sets the iostate to `goodbit`; it does not modify the character
buffer (that would be `str("")`). -/
def ResetLog (s : SuiteState) : SuiteState :=
  {s with run := {s.run with log := {s.run.log with good := true}}}

/-- Writing through `OutLog()`: `ostream` insertion appends to the buffer
when the stream state is good and is a no-op on a failed stream. -/
def OutLog (s : SuiteState) (text : String) : SuiteState :=
  if s.run.log.good then
    {s with run := {s.run with log := {s.run.log with buffer := s.run.log.buffer ++ text}}}
  else s

/-- Well-formedness of a suite: the outcome list is parallel to the case
list.  Every reachable suite state satisfies this. -/
def WF (s : SuiteState) : Prop := s.testStatus.length = s.tests.length

/-- Reference runner for one case, following the spec wording of
`runCase`: with the failed flag reset, invoke the action of the case at
index `i` exactly once (passing it the names and the index), then record
`Failed` or `Passed` at that index; the Bool is the negation of the failed
flag after the action. -/
def runCaseIdx (s : SuiteState) (i : ℕ) : SuiteState × Bool :=
  match s.tests.get? i with
  | none => (s, false)
  | some tc =>
    let r := tc.2 (GetTestNames s) (i : Int) {s.run with failed := false}
    ({s with
      currentRunningTest := (i : Int),
      run := r,
      testStatus := s.testStatus.set i
        (if r.failed then ETestStatus.FAILED else ETestStatus.PASSED)}, !r.failed)

/-- Reference runner over a list of case indices: each listed index is run
exactly once, in list order, counting the passing cases. -/
def runAllSpecGo : SuiteState → List ℕ → ℕ → SuiteState × ℕ
  | s, [], p => (s, p)
  | s, i :: is, p =>
    let q := runCaseIdx s i
    runAllSpecGo q.1 is (p + (if q.2 then 1 else 0))

/-- Reference semantics of `runAll` following the spec wording: invoke the
action of each declared case exactly once, in declaration order (indices
`0, 1, ..., N-1`), and return whether the pass count equals the case
count. -/
def runAllSpec (s : SuiteState) : SuiteState × Bool :=
  let q := runAllSpecGo s (List.range s.tests.length) 0
  (q.1, q.2 == q.1.tests.length)

/-!  The registry (`AutomationTester`).  A factory is modelled by the list
of cases that the `Define()` of the produced suite declares; instantiating
the suite and calling `Define()` is `mkSuite`. -/

/-- What an `AutomationTester` factory determines: the declared cases. -/
abbrev SuiteDecls : Type := List (String × TestAction)

/-- The `std::map<std::string, factory> _tests` member, as a key-sorted
association list. -/
abbrev Registry : Type := List (String × SuiteDecls)

/-- Insertion into the key-sorted association list, with `std::map`
semantics: `operator[]` followed by assignment replaces the mapped value
when the key exists and inserts a fresh entry at its ordered position
otherwise. -/
def mapInsert : Registry → String → SuiteDecls → Registry
  | [], name, v => [(name, v)]
  | e :: rest, name, v =>
    if name = e.1 then (name, v) :: rest
    else if name < e.1 then (name, v) :: e :: rest
    else e :: mapInsert rest name v

/-- Lookup in the association list (`std::map::find`). -/
def mapFind? : Registry → String → Option SuiteDecls
  | [], _ => none
  | e :: rest, name => if e.1 = name then some e.2 else mapFind? rest name

/-- `AddTest<T>(testName)`: `_tests[testName] = factory;`. -/
def AddTest (reg : Registry) (testName : String) (factory : SuiteDecls) : Registry :=
  mapInsert reg testName factory

/-- The per-suite loop of `RunAllTests`: for each name in the snapshot of
`GetTestNames()`, run the case and accumulate `subTestNumPassed`. -/
def runSuiteGo : SuiteState → List String → ℕ → Option (SuiteState × ℕ)
  | s, [], sub => some (s, sub)
  | s, n :: rest, sub =>
    match RunTest s n with
    | none => none
    | some (s', b) => runSuiteGo s' rest (sub + (if b then 1 else 0))

/-- The suite loop of `RunAllTests`: instantiate each registered suite,
`Define()` its cases, run every declared case, and count the suite into
`testPassed` when `subTestNumPassed == testInstance->GetTestNames().size()`. -/
def runAllTestsGo : Registry → ℕ → Option ℕ
  | [], tp => some tp
  | e :: rest, tp =>
    match mkSuite e.2 with
    | none => none
    | some s₀ =>
      match runSuiteGo s₀ (GetTestNames s₀) 0 with
      | none => none
      | some (sf, sub) =>
        runAllTestsGo rest (tp + (if sub == sf.tests.length then 1 else 0))

/-- `RunAllTests`: run every registered suite and return
`testPassed == _tests.size()` (stream I/O elided). -/
def RunAllTests (reg : Registry) : Option Bool :=
  match runAllTestsGo reg 0 with
  | none => none
  | some tp => some (tp == reg.length)

/-- The passed-case count and total-case count that `RunAllTests` computes
for one registered suite (`subTestNumPassed` and `GetTestNames().size()`). -/
def suiteCounts (decls : SuiteDecls) : Option (ℕ × ℕ) :=
  match mkSuite decls with
  | none => none
  | some s₀ =>
    match runSuiteGo s₀ (GetTestNames s₀) 0 with
    | none => none
    | some (sf, sub) => some (sub, sf.tests.length)

/-!  Decimal-literal-to-binary32 rounding, needed because `stf.h` takes
`float` arguments: a C++ call such as `TestEqual(1.0000001f, 1.0f)` first
rounds each decimal literal to the nearest binary32 value (ties to even).
The binary32 values in the interval `[1, 2]` are exactly the rationals
`k / 2 ^ 23` with `2 ^ 23 ≤ k ≤ 2 ^ 24`, so for literals in that interval
the conversion is: scale by `2 ^ 23`, round to the nearest integer (ties
to even), scale back. -/

/-- Round a rational to the nearest integer, ties to the even integer
(IEEE 754 roundTiesToEven on an exact scaled significand). -/
def rne (x : ℚ) : ℤ :=
  if x - ⌊x⌋ < 1 / 2 then ⌊x⌋
  else if 1 / 2 < x - ⌊x⌋ then ⌊x⌋ + 1
  else if ⌊x⌋ % 2 = 0 then ⌊x⌋ else ⌊x⌋ + 1

/-- Conversion of a decimal literal in `[1, 2]` to binary32, rounding to
nearest with ties to even. -/
def toFloat32unit (q : ℚ) : ℚ := ((rne (q * 2 ^ 23) : ℤ) : ℚ) / 2 ^ 23

/-- A rational is exactly representable in binary32 (finite, exponent
range ignored — all values used here are mid-range) iff it is an integer
significand of magnitude at most `2 ^ 24` times a power of two. -/
def binary32Representable (w : ℚ) : Prop :=
  ∃ m e : ℤ, |m| ≤ 2 ^ 24 ∧ w = (m : ℚ) * (2 : ℚ) ^ e

/-!  Concrete fixtures used by counterexamples and witnesses. -/

/-- An action that performs no assertion. -/
def actPass : TestAction := fun _ _ r => r

/-- An action that runs `TestTrue(false)`, failing the case silently. -/
def actFail : TestAction := fun _ _ r => (TestTrue false r).2

/-- An action whose body is `TestEqual(0, 1)` (release build). -/
def actEq01 : TestAction := fun names cur r => (TestEqualInt names cur 0 1 r).2

/-- A two-case suite: case `a` passes, case `b` fails. -/
def suiteAB : SuiteState :=
  ⟨[("a", actPass), ("b", actFail)], [ETestStatus.NOT_TESTED, ETestStatus.NOT_TESTED], initRun, -1⟩

/-- Declarations of a suite whose two cases both pass. -/
def declsAllPass : SuiteDecls := [("p1", actPass), ("p2", actPass)]

/-- Declarations of a suite with one passing and one failing case. -/
def declsMixed : SuiteDecls := [("m1", actPass), ("m2", actFail)]

/-- A registry with a fully passing suite and a partially failing suite,
written as the entry list that registering `SuiteA` and then `SuiteB`
produces. -/
def regW : Registry := [("SuiteA", declsAllPass), ("SuiteB", declsMixed)]

/-- The suite state that declaring `declsMixed` produces. -/
def suiteMixed : SuiteState :=
  ⟨declsMixed, [ETestStatus.NOT_TESTED, ETestStatus.NOT_TESTED], initRun, -1⟩

/-- A registry used to exercise `AddTest` on an already-registered name. -/
def regC7 : Registry := [("A", declsAllPass), ("B", [])]

/-!  Basic lemmas about the suite operations. -/

theorem ResetFlags_tests (s : SuiteState) : (ResetFlags s).tests = s.tests := rfl

theorem ResetFlags_testStatus (s : SuiteState) : (ResetFlags s).testStatus = s.testStatus := rfl

theorem GetTestNames_resetFlags (s : SuiteState) : GetTestNames (ResetFlags s) = GetTestNames s := rfl

theorem ResetFlags_idem (s : SuiteState) : ResetFlags (ResetFlags s) = ResetFlags s := rfl

theorem RunTest_resetFlags (s : SuiteState) (name : String) :
    RunTest (ResetFlags s) name = RunTest s name := rfl

theorem findCase_eq_none (name : String) :
    ∀ (l : List (String × TestAction)) (k : ℕ), name ∉ l.map Prod.fst →
      findCase name l k = none := by
  intro l
  induction l with
  | nil => intro k _; rfl
  | cons tc rest ih =>
    intro k hmem
    rw [findCase]
    rw [List.map_cons, List.mem_cons] at hmem
    push_neg at hmem
    rw [if_neg (fun h => hmem.1 h.symm)]
    exact ih (k + 1) hmem.2

theorem findCase_nodup :
    ∀ (l : List (String × TestAction)) (i k : ℕ) (tc : String × TestAction),
      (l.map Prod.fst).Nodup → l.get? i = some tc →
      findCase tc.1 l k = some (k + i, tc) := by
  intro l
  induction l with
  | nil => intro i k tc _ hget; simp [List.get?] at hget
  | cons hd rest ih =>
    intro i k tc hnd hget
    rw [List.map_cons, List.nodup_cons] at hnd
    cases i with
    | zero =>
      rw [List.get?] at hget
      injection hget with hget
      subst hget
      rw [findCase, if_pos rfl]
      simp
    | succ j =>
      rw [List.get?] at hget
      have htcmem : tc.1 ∈ rest.map Prod.fst :=
        List.mem_map_of_mem Prod.fst (List.get?_mem hget)
      have hne : hd.1 ≠ tc.1 := fun h => hnd.1 (h ▸ htcmem)
      rw [findCase, if_neg hne]
      have := ih j (k + 1) tc hnd.2 hget
      rw [this]
      congr 2
      omega

theorem findCase_mem (name : String) :
    ∀ (l : List (String × TestAction)) (k : ℕ), name ∈ l.map Prod.fst →
      ∃ i tc, findCase name l k = some (i, tc) := by
  intro l
  induction l with
  | nil => intro k h; simp at h
  | cons hd rest ih =>
    intro k hmem
    rw [findCase]
    by_cases h : hd.1 = name
    · exact ⟨k, hd, by rw [if_pos h]⟩
    · rw [if_neg h]
      rw [List.map_cons, List.mem_cons] at hmem
      exact ih (k + 1) (hmem.resolve_left (fun hh => h hh.symm))

theorem RunTest_isSome (s : SuiteState) (name : String)
    (h : name ∈ GetTestNames s) : (RunTest s name).isSome := by
  have h' : name ∈ (ResetFlags s).tests.map Prod.fst := h
  obtain ⟨i, tc, hfc⟩ := findCase_mem name (ResetFlags s).tests 0 h'
  rw [RunTest, hfc]
  rfl

theorem RunTest_preserve (s : SuiteState) (name : String) (s' : SuiteState) (b : Bool)
    (h : RunTest s name = some (s', b)) :
    s'.tests = s.tests ∧ s'.testStatus.length = s.testStatus.length := by
  rw [RunTest] at h
  rcases hfc : findCase name (ResetFlags s).tests 0 with _ | p
  · rw [hfc] at h; exact absurd h (by simp)
  · rw [hfc] at h
    injection h with h
    have h1 := congrArg Prod.fst h
    simp only at h1
    subst h1
    exact ⟨rfl, List.length_set ..⟩

theorem runCaseIdx_tests (s : SuiteState) (i : ℕ) : (runCaseIdx s i).1.tests = s.tests := by
  rw [runCaseIdx]
  rcases hget : s.tests.get? i with _ | tc <;> rfl

theorem runCaseIdx_len (s : SuiteState) (i : ℕ) :
    (runCaseIdx s i).1.testStatus.length = s.testStatus.length := by
  rw [runCaseIdx]
  rcases hget : s.tests.get? i with _ | tc
  · rfl
  · exact List.length_set ..

theorem runCaseIdx_names (s : SuiteState) (i : ℕ) :
    GetTestNames (runCaseIdx s i).1 = GetTestNames s := by
  rw [GetTestNames, GetTestNames, runCaseIdx_tests]

theorem RunTest_eq_runCaseIdx (s : SuiteState) (i : ℕ) (tc : String × TestAction)
    (hnd : (GetTestNames s).Nodup) (hget : s.tests.get? i = some tc) :
    RunTest s tc.1 = some (runCaseIdx s i) := by
  have hfc : findCase tc.1 (ResetFlags s).tests 0 = some (0 + i, tc) :=
    findCase_nodup s.tests i 0 tc hnd hget
  rw [RunTest, hfc, runCaseIdx, hget]
  simp only [Nat.zero_add]
  rfl

theorem mkSuiteGo_spec :
    ∀ (decls : List (String × TestAction)) (s : SuiteState),
      ((s.tests.map Prod.fst) ++ decls.map Prod.fst).Nodup →
      s.tests.length + decls.length ≤ 2147483647 →
      mkSuiteGo s decls = some
        ⟨s.tests ++ decls,
         s.testStatus ++ List.replicate decls.length ETestStatus.NOT_TESTED,
         s.run, s.currentRunningTest⟩ := by
  intro decls
  induction decls with
  | nil => intro s _ _; simp [mkSuiteGo]
  | cons d ds ih =>
    intro s hnd hlen
    have hfst : d.1 ∉ s.tests.map Prod.fst := by
      rw [List.map_cons, List.nodup_append] at hnd
      intro hmem
      exact (hnd.2.2 hmem) (List.mem_cons_self _ _)
    have hany : s.tests.any (fun tc => tc.1 == d.1) = false := by
      rw [List.any_eq_false]
      intro tc htc
      simp only [beq_iff_eq]
      intro h
      exact hfst (h ▸ List.mem_map_of_mem Prod.fst htc)
    have hsz : s.tests.length < 2147483647 := by
      simp only [List.length_cons] at hlen
      omega
    rw [mkSuiteGo, TestCase, hany]
    simp only [Bool.false_eq_true, if_false, if_pos hsz]
    have := ih ⟨s.tests ++ [d], s.testStatus ++ [ETestStatus.NOT_TESTED],
      s.run, s.currentRunningTest⟩
      (by simpa [List.append_assoc] using hnd)
      (by simp only [List.length_append, List.length_singleton]
          simp only [List.length_cons] at hlen
          omega)
    rw [this]
    simp [List.append_assoc, List.replicate_succ]

theorem mkSuite_spec (decls : List (String × TestAction))
    (hnd : (decls.map Prod.fst).Nodup) (hlen : decls.length ≤ 2147483647) :
    mkSuite decls = some ⟨decls, List.replicate decls.length ETestStatus.NOT_TESTED, initRun, -1⟩ := by
  have := mkSuiteGo_spec decls initSuite (by simpa [initSuite] using hnd)
    (by simpa [initSuite] using hlen)
  rw [mkSuite, this]
  simp [initSuite]

theorem ite_status (b : Bool) :
    (if b = true then ETestStatus.FAILED else ETestStatus.PASSED)
      = (if (!b) = true then ETestStatus.PASSED else ETestStatus.FAILED) := by
  cases b <;> rfl

theorem runCaseIdx_status (s : SuiteState) (i : ℕ) (tc : String × TestAction)
    (hget : s.tests.get? i = some tc) :
    (runCaseIdx s i).1.testStatus
      = s.testStatus.set i
          (if (runCaseIdx s i).2 then ETestStatus.PASSED else ETestStatus.FAILED) := by
  rw [runCaseIdx, hget]
  simp only
  congr 1
  exact ite_status _

theorem runAllGo_eq_spec :
    ∀ (m : ℕ) (s : SuiteState) (k p : ℕ),
      WF s → (GetTestNames s).Nodup → m = s.tests.length - k →
      runAllGo s ((GetTestNames s).drop k) p = some (runAllSpecGo s (List.range' k m) p) := by
  intro m
  induction m with
  | zero =>
    intro s k p _ _ hm
    have hdrop : (GetTestNames s).drop k = [] :=
      List.drop_eq_nil_of_le (by simp only [GetTestNames, List.length_map]; omega)
    rw [hdrop]
    rfl
  | succ m ih =>
    intro s k p hWF hnd hm
    have hk : k < s.tests.length := by omega
    have hklen : k < (GetTestNames s).length := by
      simpa [GetTestNames] using hk
    have hget : s.tests.get? k = some (s.tests.get ⟨k, hk⟩) := List.get?_eq_get hk
    have hdrop : (GetTestNames s).drop k
        = (s.tests.get ⟨k, hk⟩).1 :: (GetTestNames s).drop (k + 1) := by
      rw [List.drop_eq_getElem_cons hklen]
      congr 1
      simp [GetTestNames]
    rw [hdrop, runAllGo, RunTest_resetFlags,
      RunTest_eq_runCaseIdx s k (s.tests.get ⟨k, hk⟩) hnd hget]
    have hs₁tests : (runCaseIdx s k).1.tests = s.tests := runCaseIdx_tests s k
    have hs₁names : GetTestNames (runCaseIdx s k).1 = GetTestNames s := runCaseIdx_names s k
    have hs₁len : (runCaseIdx s k).1.testStatus.length = s.testStatus.length := runCaseIdx_len s k
    have ihh := ih (runCaseIdx s k).1 (k + 1) (p + if (runCaseIdx s k).2 then 1 else 0)
      (by rw [WF, hs₁len, hs₁tests]; exact hWF)
      (by rw [hs₁names]; exact hnd)
      (by rw [hs₁tests]; omega)
    rw [show (GetTestNames s).drop (k + 1) = (GetTestNames (runCaseIdx s k).1).drop (k + 1) by
      rw [hs₁names]]
    rw [show List.range' k (m + 1) = k :: List.range' (k + 1) m from List.range'_succ ..]
    simp only [runAllSpecGo]
    rw [← ihh]

theorem RunAll_eq_runAllSpec (s : SuiteState) (hWF : WF s) (hnd : (GetTestNames s).Nodup) :
    RunAll s = some (runAllSpec s) := by
  have h := runAllGo_eq_spec s.tests.length s 0 0 hWF hnd (by omega)
  rw [List.drop_zero] at h
  rw [RunAll, h, runAllSpec, List.range_eq_range']

theorem specGo_count :
    ∀ (l : List ℕ) (s : SuiteState) (p : ℕ),
      WF s → l.Nodup → (∀ i ∈ l, i < s.tests.length) →
      (runAllSpecGo s l p).1.tests = s.tests
      ∧ (runAllSpecGo s l p).1.testStatus.length = s.testStatus.length
      ∧ (∀ j, j ∉ l → (runAllSpecGo s l p).1.testStatus.get? j = s.testStatus.get? j)
      ∧ (runAllSpecGo s l p).2
          = p + l.countP (fun i => (runAllSpecGo s l p).1.testStatus.get? i == some ETestStatus.PASSED) := by
  intro l
  induction l with
  | nil =>
    intro s p _ _ _
    exact ⟨rfl, rfl, fun j _ => rfl, by simp [runAllSpecGo]⟩
  | cons i rest ih =>
    intro s p hWF hnd hbound
    rw [List.nodup_cons] at hnd
    have hi : i < s.tests.length := hbound i (List.mem_cons_self ..)
    have hget : s.tests.get? i = some (s.tests.get ⟨i, hi⟩) := List.get?_eq_get hi
    have hstep : runAllSpecGo s (i :: rest) p
        = runAllSpecGo (runCaseIdx s i).1 rest (p + if (runCaseIdx s i).2 then 1 else 0) := rfl
    have hs₁tests : (runCaseIdx s i).1.tests = s.tests := runCaseIdx_tests s i
    have hs₁len : (runCaseIdx s i).1.testStatus.length = s.testStatus.length := runCaseIdx_len s i
    have hstatus := runCaseIdx_status s i (s.tests.get ⟨i, hi⟩) hget
    obtain ⟨ih1, ih2, ih3, ih4⟩ := ih (runCaseIdx s i).1 (p + if (runCaseIdx s i).2 then 1 else 0)
      (by rw [WF, hs₁len, hs₁tests]; exact hWF)
      hnd.2
      (by rw [hs₁tests]; exact fun j hj => hbound j (List.mem_cons_of_mem _ hj))
    rw [hstep]
    refine ⟨ih1.trans hs₁tests, ih2.trans hs₁len, ?_, ?_⟩
    · intro j hj
      rw [List.mem_cons] at hj
      push_neg at hj
      rw [ih3 j hj.2, hstatus, List.get?_eq_getElem?, List.get?_eq_getElem?,
        List.getElem?_set_ne (by omega)]
    · have hfinal_i : (runAllSpecGo (runCaseIdx s i).1 rest
          (p + if (runCaseIdx s i).2 then 1 else 0)).1.testStatus.get? i
          = some (if (runCaseIdx s i).2 then ETestStatus.PASSED else ETestStatus.FAILED) := by
        rw [ih3 i hnd.1, hstatus, List.get?_eq_getElem?,
          List.getElem?_set_self (by rw [hWF]; exact hi)]
      rw [List.countP_cons, ih4]
      simp only [hfinal_i]
      rcases hb : (runCaseIdx s i).2 with _ | _
      · simp [hb]
      · simp [hb]
        omega

theorem runAllSpec_allPassed (s : SuiteState) (hWF : WF s) :
    (runAllSpec s).2 = decide (∀ st ∈ (runAllSpec s).1.testStatus, st = ETestStatus.PASSED) := by
  obtain ⟨htests, hlen, hpres, hcount⟩ := specGo_count (List.range s.tests.length) s 0 hWF
    (List.nodup_range _) (fun i hi => List.mem_range.mp hi)
  have hshow : runAllSpec s
      = ((runAllSpecGo s (List.range s.tests.length) 0).1,
         (runAllSpecGo s (List.range s.tests.length) 0).2
           == (runAllSpecGo s (List.range s.tests.length) 0).1.tests.length) := rfl
  rw [hshow]
  simp only
  set q := runAllSpecGo s (List.range s.tests.length) 0 with hqdef
  have hq1len : q.1.testStatus.length = s.tests.length := hlen.trans hWF
  have hq1tests : q.1.tests.length = s.tests.length := by rw [htests]
  have hA : (∀ i ∈ List.range s.tests.length,
        (q.1.testStatus.get? i == some ETestStatus.PASSED) = true)
      ↔ (∀ st ∈ q.1.testStatus, st = ETestStatus.PASSED) := by
    constructor
    · intro h st hst
      obtain ⟨n, hn⟩ := List.mem_iff_get?.mp hst
      obtain ⟨hlt, _⟩ := List.get?_eq_some.mp hn
      have hnlt : n < s.tests.length := by omega
      have hh := h n (List.mem_range.mpr hnlt)
      rw [hn] at hh
      simpa using hh
    · intro h i hi
      have hilt : i < q.1.testStatus.length := by
        rw [hq1len]
        exact List.mem_range.mp hi
      rw [List.get?_eq_get hilt]
      have hmem := List.get_mem q.1.testStatus i hilt
      rw [h _ hmem]
      simp
  by_cases hP : ∀ st ∈ q.1.testStatus, st = ETestStatus.PASSED
  · have h1 : List.countP (fun i => q.1.testStatus.get? i == some ETestStatus.PASSED)
        (List.range s.tests.length) = (List.range s.tests.length).length :=
      List.countP_eq_length.mpr (hA.mpr hP)
    rw [List.length_range] at h1
    rw [decide_eq_true hP, hcount, h1, hq1tests]
    simp
  · have hne : List.countP (fun i => q.1.testStatus.get? i == some ETestStatus.PASSED)
        (List.range s.tests.length) ≠ s.tests.length := by
      intro hEq
      refine hP (hA.mp (List.countP_eq_length.mp ?_))
      rw [List.length_range]
      exact hEq
    rw [decide_eq_false hP, hcount, hq1tests]
    refine beq_eq_false_iff_ne.mpr ?_
    omega

/-- Claim C1: for every suite with N declared cases, `RunAll` invokes the
action of each declared case exactly once, in declaration order (this is
the structure of `runAllSpec`, which folds `runCaseIdx` over the indices
`0, ..., N-1`, applying each action exactly once), `GetTestNames` returns
exactly the N declared names in declaration order, and `RunAll` returns
true iff every case passed (every recorded outcome is `PASSED`).  The
hypotheses are the preconditions that `TestCase` itself enforces with
asserts: distinct names and fewer than `INT_MAX` cases. -/
theorem spec_c1_runAll (decls : List (String × TestAction))
    (hnd : (decls.map Prod.fst).Nodup) (hlen : decls.length ≤ 2147483647) :
    ∃ s, mkSuite decls = some s
      ∧ GetTestNames s = decls.map Prod.fst
      ∧ RunAll s = some (runAllSpec s)
      ∧ (runAllSpec s).2 = decide (∀ st ∈ (runAllSpec s).1.testStatus, st = ETestStatus.PASSED) := by
  refine ⟨_, mkSuite_spec decls hnd hlen, ?_, ?_, ?_⟩
  · rfl
  · apply RunAll_eq_runAllSpec
    · rw [WF]
      simp
    · simpa [GetTestNames] using hnd
  · apply runAllSpec_allPassed
    rw [WF]
    simp

/-- Witness for C1 at the concrete two-case suite `declsMixed`. -/
theorem spec_c1_witness :
    mkSuite declsMixed = some suiteMixed
    ∧ GetTestNames suiteMixed = ["m1", "m2"]
    ∧ RunAll suiteMixed = some (runAllSpec suiteMixed)
    ∧ (runAllSpec suiteMixed).2
        = decide (∀ st ∈ (runAllSpec suiteMixed).1.testStatus, st = ETestStatus.PASSED) := by
  obtain ⟨s, h1, h2, h3, h4⟩ := spec_c1_runAll declsMixed (by decide) (by decide)
  have hs : s = suiteMixed := by
    have heval : mkSuite declsMixed = some suiteMixed := rfl
    rw [heval] at h1
    exact (Option.some.inj h1).symm
  subst hs
  exact ⟨h1, h2, h3, h4⟩

/-- Claim C2: for every suite and name, `RunTest(name)` resets
`_failed` to false and `_currentRunningTest` to -1 before the lookup,
fails fatally (`assert`, modelled as `none`) when the name is not
declared; otherwise it sets `_currentRunningTest` to the position of the
named case, invokes the action of that case (on the run state with the
failed flag freshly reset), then records `FAILED` at that position if the
flag was set and `PASSED` otherwise, and returns the negation of the
flag. -/
theorem spec_c2_runTest (s : SuiteState) (name : String) :
    (name ∉ GetTestNames s → RunTest s name = none)
    ∧ ((GetTestNames s).Nodup → ∀ (i : ℕ) (tc : String × TestAction),
        s.tests.get? i = some tc → tc.1 = name →
        RunTest s name = some
          ({s with
              currentRunningTest := (i : Int),
              run := tc.2 (GetTestNames s) (i : Int) {s.run with failed := false},
              testStatus := s.testStatus.set i
                (if (tc.2 (GetTestNames s) (i : Int) {s.run with failed := false}).failed
                 then ETestStatus.FAILED else ETestStatus.PASSED)},
           !(tc.2 (GetTestNames s) (i : Int) {s.run with failed := false}).failed)) := by
  constructor
  · intro hmem
    rw [RunTest, findCase_eq_none name (ResetFlags s).tests 0 hmem]
  · intro hnd i tc hget hname
    subst hname
    rw [RunTest_eq_runCaseIdx s i tc hnd hget, runCaseIdx, hget]

/-- Witness for C2 at the concrete suite `suiteAB`: an undeclared name is
fatal, and running the declared case `b` records its failure at index 1
and returns false. -/
theorem spec_c2_witness :
    RunTest suiteAB "zzz" = none
    ∧ RunTest suiteAB "b" = some
        ({suiteAB with
            currentRunningTest := (1 : Int),
            run := actFail (GetTestNames suiteAB) 1 {suiteAB.run with failed := false},
            testStatus := suiteAB.testStatus.set 1
              (if (actFail (GetTestNames suiteAB) 1 {suiteAB.run with failed := false}).failed
               then ETestStatus.FAILED else ETestStatus.PASSED)},
         !(actFail (GetTestNames suiteAB) 1 {suiteAB.run with failed := false}).failed) := by
  constructor
  · exact (spec_c2_runTest suiteAB "zzz").1 (by decide)
  · exact (spec_c2_runTest suiteAB "b").2 (by decide) 1 ("b", actFail) rfl rfl

theorem runSuiteGo_some :
    ∀ (ns : List String) (s : SuiteState) (sub : ℕ),
      (∀ n ∈ ns, n ∈ GetTestNames s) →
      ∃ sf sub2, runSuiteGo s ns sub = some (sf, sub + sub2)
        ∧ sf.tests = s.tests ∧ sub2 ≤ ns.length := by
  intro ns
  induction ns with
  | nil =>
    intro s sub _
    exact ⟨s, 0, rfl, rfl, by omega⟩
  | cons n rest ih =>
    intro s sub hmem
    have hn := hmem n (List.mem_cons_self ..)
    obtain ⟨p, hp⟩ := Option.isSome_iff_exists.mp (RunTest_isSome s n hn)
    rcases p with ⟨s', b⟩
    obtain ⟨htests, _⟩ := RunTest_preserve s n s' b hp
    have hmem2 : ∀ x ∈ rest, x ∈ GetTestNames s' := by
      intro x hx
      have hgn : GetTestNames s' = GetTestNames s := by
        rw [GetTestNames, GetTestNames, htests]
      rw [hgn]
      exact hmem x (List.mem_cons_of_mem _ hx)
    obtain ⟨sf, sub2, hgo, htf, hle⟩ := ih s' (sub + if b then 1 else 0) hmem2
    refine ⟨sf, (if b then 1 else 0) + sub2, ?_, htf.trans htests, ?_⟩
    · simp only [runSuiteGo, hp, hgo]
      rw [Nat.add_assoc]
    · have hb : (if b then 1 else 0) ≤ 1 := by
        rcases b with _ | _ <;> simp
      rw [List.length_cons]
      omega

theorem suiteCounts_eq (decls : SuiteDecls)
    (hnd : (decls.map Prod.fst).Nodup) (hlen : decls.length ≤ 2147483647) :
    ∃ sf sub2, suiteCounts decls = some (0 + sub2, sf.tests.length)
      ∧ runSuiteGo ⟨decls, List.replicate decls.length ETestStatus.NOT_TESTED, initRun, -1⟩
          (GetTestNames ⟨decls, List.replicate decls.length ETestStatus.NOT_TESTED, initRun, -1⟩) 0
          = some (sf, 0 + sub2) := by
  have hmk := mkSuite_spec decls hnd hlen
  obtain ⟨sf, sub2, hgo, _, _⟩ := runSuiteGo_some
    (GetTestNames ⟨decls, List.replicate decls.length ETestStatus.NOT_TESTED, initRun, -1⟩)
    ⟨decls, List.replicate decls.length ETestStatus.NOT_TESTED, initRun, -1⟩ 0
    (fun n hn => hn)
  refine ⟨sf, sub2, ?_, hgo⟩
  simp only [suiteCounts, hmk, hgo]

theorem runAllTestsGo_spec :
    ∀ (reg : Registry) (tp : ℕ),
      (∀ e ∈ reg, ((List.map Prod.fst e.2).Nodup ∧ e.2.length ≤ 2147483647)) →
      ∃ tp2, runAllTestsGo reg tp = some (tp + tp2) ∧ tp2 ≤ reg.length
        ∧ (tp2 = reg.length ↔ ∀ e ∈ reg, ∃ p t, suiteCounts e.2 = some (p, t) ∧ p = t) := by
  intro reg
  induction reg with
  | nil =>
    intro tp _
    refine ⟨0, rfl, by simp, ?_⟩
    simp
  | cons e rest ih =>
    intro tp h
    obtain ⟨hnd, hlen⟩ := h e (List.mem_cons_self ..)
    have hmk := mkSuite_spec e.2 hnd hlen
    obtain ⟨sf, sub2, hcounts, hgo⟩ := suiteCounts_eq e.2 hnd hlen
    obtain ⟨tp2, hrest, hle2, hiff⟩ :=
      ih (tp + if (0 + sub2) == sf.tests.length then 1 else 0)
        (fun x hx => h x (List.mem_cons_of_mem _ hx))
    have hind : (if (0 + sub2) == sf.tests.length then 1 else 0) ≤ 1 := by
      rcases hbeq : (0 + sub2) == sf.tests.length with _ | _ <;> simp
    refine ⟨(if (0 + sub2) == sf.tests.length then 1 else 0) + tp2, ?_, ?_, ?_⟩
    · simp only [runAllTestsGo, hmk, hgo, hrest]
      rw [Nat.add_assoc]
    · rw [List.length_cons]
      omega
    · rw [List.length_cons]
      constructor
      · intro hsum
        have h1 : (if (0 + sub2) == sf.tests.length then 1 else 0) = 1 := by omega
        have h2 : tp2 = rest.length := by omega
        have hfp : (0 + sub2) = sf.tests.length := by
          by_contra hne
          rw [if_neg (by simpa using hne)] at h1
          omega
        intro x hx
        rw [List.mem_cons] at hx
        rcases hx with hx | hx
        · subst hx
          exact ⟨0 + sub2, sf.tests.length, hcounts, hfp⟩
        · exact hiff.mp h2 x hx
      · intro hall
        have he := hall e (List.mem_cons_self ..)
        obtain ⟨p, t, hpt, hpeq⟩ := he
        rw [hcounts] at hpt
        have hp1 : p = 0 + sub2 := (Prod.mk.injEq .. ▸ Option.some.inj hpt).1.symm
        have ht1 : t = sf.tests.length := (Prod.mk.injEq .. ▸ Option.some.inj hpt).2.symm
        have hfp : (0 + sub2) = sf.tests.length := by rw [← hp1, ← ht1]; exact hpeq
        have h1 : (if (0 + sub2) == sf.tests.length then 1 else 0) = 1 := by
          rw [if_pos (by simpa using hfp)]
        have h2 : tp2 = rest.length :=
          hiff.mpr (fun x hx => hall x (List.mem_cons_of_mem _ hx))
        omega

/-- Claim C3: the registry counts a suite as fully passed iff the passed
count that `RunAllTests` accumulates for it (`subTestNumPassed`) equals
its total case count (`GetTestNames().size()`, reported by `suiteCounts`),
and `RunAllTests` returns true iff every registered suite fully passed.
The hypotheses are the per-suite preconditions that `TestCase` itself
enforces with asserts: distinct case names and fewer than `INT_MAX`
cases. -/
theorem spec_c3_registry (reg : Registry)
    (h : ∀ e ∈ reg, ((List.map Prod.fst e.2).Nodup ∧ e.2.length ≤ 2147483647)) :
    ∃ b, RunAllTests reg = some b
      ∧ (b = true ↔ ∀ e ∈ reg, ∃ p t, suiteCounts e.2 = some (p, t) ∧ p = t) := by
  obtain ⟨tp2, hgo, hle, hiff⟩ := runAllTestsGo_spec reg 0 h
  refine ⟨(0 + tp2) == reg.length, ?_, ?_⟩
  · rw [RunAllTests, hgo]
  · rw [beq_iff_eq]
    constructor
    · intro hsum
      exact hiff.mp (by omega)
    · intro hall
      have := hiff.mpr hall
      omega

/-- Witness for C3 at the concrete registry `regW`, whose suite `SuiteB`
has a failing case: the overall result is false, and accordingly not every
suite fully passed. -/
theorem spec_c3_witness :
    RunAllTests regW = some false
    ∧ ¬ (∀ e ∈ regW, ∃ p t, suiteCounts e.2 = some (p, t) ∧ p = t) := by
  obtain ⟨b, h1, h2⟩ := spec_c3_registry regW (by decide)
  have heval : RunAllTests regW = some false := rfl
  have hb : b = false := Option.some.inj (h1.symm.trans heval)
  subst hb
  exact ⟨heval, fun hall => by simpa using h2.mpr hall⟩

/-- Counterexample to claim C4: running a case whose body is
`TestEqual(0, 1)` leaves the text returned by `GetLog` empty — the
mismatch diagnostic is not appended to the suite log buffer; it goes to
the process standard-error stream, and the failed flag is set. -/
theorem spec_c4_cex :
    (mkSuite [("c", actEq01)]).bind
        (fun s => (RunTest s "c").map (fun p => (GetLog p.1, p.1.run.failed, p.1.run.cerr)))
      = some ("", true, eqMsg ["c"] 0 (toString (1 : Int)) (toString (0 : Int))) := rfl

/-- Claim C4, amended: on every mismatching pair of values, `TestEqual`
sets the failed flag to true and appends one diagnostic line — naming the
currently running case, the expected value and the actual value — to the
process standard-error stream, not to the suite log buffer; the log
(the text `GetLog` returns) is unchanged. -/
theorem spec_c4_amended (names : List String) (cur : Int) (value expected : Int)
    (r : RunState) (h : value ≠ expected) :
    TestEqualInt names cur value expected r
      = (false, {r with
          failed := true,
          cerr := r.cerr ++ eqMsg names cur (toString expected) (toString value)})
    ∧ (TestEqualInt names cur value expected r).2.log = r.log
    ∧ (TestEqualInt names cur value expected r).2.failed = true := by
  rw [TestEqualInt, if_neg h]
  exact ⟨rfl, rfl, rfl⟩

/-- Witness for the amended C4 at the mismatching pair (0, 1). -/
theorem spec_c4_witness :
    TestEqualInt ["c"] 0 0 1 initRun
      = (false, {initRun with
          failed := true,
          cerr := initRun.cerr ++ eqMsg ["c"] 0 (toString (1 : Int)) (toString (0 : Int))})
    ∧ (TestEqualInt ["c"] 0 0 1 initRun).2.log = initRun.log
    ∧ (TestEqualInt ["c"] 0 0 1 initRun).2.failed = true :=
  spec_c4_amended ["c"] 0 0 1 initRun (by decide)

/-- Claim C5 against the code as written: in the default build (asserts
enabled), a failed `TestEqual` executes `assert(false)` and aborts the
process, so the remaining cases of the suite never run; a matching
`TestEqual` does not abort.  The claim (and the rest of the code — the
unreachable `return false` after the assert, the `FAILED` outcome
machinery, and the doc comment of `TestEqual`) says an assertion failure
is only recorded, never fatal. -/
theorem spec_c5_bug :
    isAbort (TestEqualIntDbg ["case"] 0 5 6 initRun) = true
    ∧ isAbort (TestEqualIntDbg ["case"] 0 5 5 initRun) = false :=
  ⟨rfl, rfl⟩

/-- Claim C6 against the code as written: after `RunTest` on a one-case
suite returns, no case action is executing any more, yet
`GetCurrentRunningTest()` still returns the index 0 of the last case run —
`RunTest` never resets `_currentRunningTest` to -1 on completion,
contradicting the documented `-1 if no tests are running`. -/
theorem spec_c6_bug :
    (mkSuite [("t", actPass)]).bind
        (fun s => (RunTest s "t").map (fun p => GetCurrentRunningTest p.1)) = some 0 := rfl

/-- Claim C7: for every registry and every already-registered name,
`AddTest` with that name silently overwrites the stored factory
(`_tests[testName] = ...` on the `std::map`), and the mapping of every
other name is unchanged. -/
theorem spec_c7_addTest (reg : Registry) (name : String) (v : SuiteDecls)
    (hmem : name ∈ reg.map Prod.fst) :
    mapFind? (AddTest reg name v) name = some v
    ∧ ∀ k, k ≠ name → mapFind? (AddTest reg name v) k = mapFind? reg k := by
  rw [AddTest]
  induction reg with
  | nil => exact absurd hmem (by simp)
  | cons e rest ih =>
    rw [mapInsert]
    by_cases h1 : name = e.1
    · rw [if_pos h1]
      refine ⟨by rw [mapFind?, if_pos rfl], ?_⟩
      intro k hk
      rw [mapFind?, mapFind?, if_neg (fun hh => hk hh.symm),
        if_neg (fun hh => hk (h1 ▸ hh).symm)]
    · rw [if_neg h1]
      by_cases h2 : name < e.1
      · rw [if_pos h2]
        refine ⟨by rw [mapFind?, if_pos rfl], ?_⟩
        intro k hk
        rw [mapFind?, if_neg (fun hh => hk hh.symm)]
      · rw [if_neg h2]
        have hmem2 : name ∈ rest.map Prod.fst := by
          rw [List.map_cons, List.mem_cons] at hmem
          exact hmem.resolve_left h1
        obtain ⟨ihA, ihB⟩ := ih hmem2
        refine ⟨?_, ?_⟩
        · rw [mapFind?, if_neg (fun hh => h1 hh.symm), ihA]
        · intro k hk
          rw [mapFind?, mapFind?]
          by_cases h3 : e.1 = k
          · rw [if_pos h3, if_pos h3]
          · rw [if_neg h3, if_neg h3, ihB k hk]

/-- Witness for C7: re-registering `A` in the concrete registry `regC7`
replaces the factory of `A` and leaves the lookup of `B` unchanged. -/
theorem spec_c7_witness :
    mapFind? (AddTest regC7 "A" declsMixed) "A" = some declsMixed
    ∧ mapFind? (AddTest regC7 "A" declsMixed) "B" = mapFind? regC7 "B" := by
  obtain ⟨h1, h2⟩ := spec_c7_addTest regC7 "A" declsMixed (by decide)
  exact ⟨h1, h2 "B" (by decide)⟩

theorem getResultGo_isSome :
    ∀ (ts : List (String × TestAction)) (sts : List ETestStatus) (name : String),
      sts.length = ts.length →
      ((getResultGo ts sts name).isSome = true ↔ name ∈ ts.map Prod.fst) := by
  intro ts
  induction ts with
  | nil =>
    intro sts name _
    simp [getResultGo]
  | cons tc rest ih =>
    intro sts name h
    rcases sts with _ | ⟨st, sts⟩
    · rw [List.length_nil, List.length_cons] at h
      omega
    · rw [getResultGo]
      by_cases hn : tc.1 = name
      · rw [if_pos hn]
        simp [hn.symm]
      · rw [if_neg hn]
        rw [List.length_cons, List.length_cons] at h
        have hrec := ih sts name (by omega)
        rw [List.map_cons]
        constructor
        · intro hh
          exact List.mem_cons_of_mem _ (hrec.mp hh)
        · intro hh
          rcases List.mem_cons.mp hh with h1 | h1
          · exact absurd h1.symm hn
          · exact hrec.mpr h1

/-- Claim C9: in every well-formed suite state, `GetResult(name)` has a
defined value exactly when `name` is a declared case; the C++ function
falls off its end otherwise, so the total embedding returns an `Option`
that is `some` iff the name is declared. -/
theorem spec_c9_getResult (s : SuiteState) (hWF : WF s) (name : String) :
    (GetResult s name).isSome = true ↔ name ∈ GetTestNames s :=
  getResultGo_isSome s.tests s.testStatus name hWF

/-- Witness for C9 at the concrete suite `suiteAB`, on one declared and
one undeclared name. -/
theorem spec_c9_witness :
    ((GetResult suiteAB "a").isSome = true ↔ "a" ∈ GetTestNames suiteAB)
    ∧ ((GetResult suiteAB "zzz").isSome = true ↔ "zzz" ∈ GetTestNames suiteAB) :=
  ⟨spec_c9_getResult suiteAB (by rw [WF]; rfl) "a",
   spec_c9_getResult suiteAB (by rw [WF]; rfl) "zzz"⟩

/-- Claim C10: `ResetLog` leaves the accumulated log text unchanged —
`_log.clear()` resets the stream iostate, not the buffer — so `GetLog`
returns the same string before and after. -/
theorem spec_c10_resetLog (s : SuiteState) : GetLog (ResetLog s) = GetLog s := rfl

theorem floor_x0 : ⌊(10000001 / 10000000 : ℚ) * 2 ^ 23⌋ = 8388608 := by
  rw [Int.floor_eq_iff]
  norm_num

theorem rne_x0 : rne ((10000001 / 10000000 : ℚ) * 2 ^ 23) = 8388609 := by
  rw [rne, floor_x0]
  norm_num

theorem rne_one : rne ((1 : ℚ) * 2 ^ 23) = 8388608 := by
  have h : ⌊(1 : ℚ) * 2 ^ 23⌋ = 8388608 := by
    rw [Int.floor_eq_iff]
    norm_num
  rw [rne, h]
  norm_num

theorem lit1p : toFloat32unit (10000001 / 10000000) = 1 + 1 / 2 ^ 23 := by
  rw [toFloat32unit, rne_x0]
  norm_num

theorem lit1 : toFloat32unit 1 = 1 := by
  rw [toFloat32unit, rne_one]
  norm_num

theorem rne_dist (x : ℚ) : |x - rne x| ≤ 1 / 2 := by
  have hle := Int.floor_le x
  have hlt := Int.lt_floor_add_one x
  rw [rne]
  split_ifs with h1 h2 h3 <;> rw [abs_le] <;> constructor <;> push_cast <;> linarith

theorem rne_strict (x : ℚ) (h : |x - rne x| < 1 / 2) (k : ℤ) (hk : k ≠ rne x) :
    |x - rne x| < |x - k| := by
  have hz : (1 : ℤ) ≤ |rne x - k| := Int.one_le_abs (sub_ne_zero.mpr (fun hh => hk hh.symm))
  have h1 : (1 : ℚ) ≤ |(rne x : ℚ) - (k : ℚ)| := by exact_mod_cast hz
  have tri := abs_sub_le ((rne x : ℚ)) x (k : ℚ)
  have hcomm := abs_sub_comm ((rne x : ℚ)) x
  linarith

/-- The binary32 nearest-rounding fact behind `toFloat32unit` at the
literal `1.0000001`: the value `1 + 2 ^ (-23)` is representable, and it is
strictly nearer to `10000001/10000000` than every other representable
value — so IEEE 754 round-to-nearest must produce it. -/
theorem lit1p_nearest :
    binary32Representable (1 + 1 / 2 ^ 23)
    ∧ ∀ w : ℚ, binary32Representable w → w ≠ 1 + 1 / 2 ^ 23 →
        |(10000001 / 10000000 : ℚ) - (1 + 1 / 2 ^ 23)|
          < |(10000001 / 10000000 : ℚ) - w| := by
  constructor
  · exact ⟨8388609, -23, by norm_num, by norm_num⟩
  · rintro w ⟨m, e, hm, hwe⟩ hne
    have hmq : |(m : ℚ)| ≤ 2 ^ 24 := by exact_mod_cast hm
    by_cases he : -23 ≤ e
    · -- w is an integer multiple of 2 ^ (-23)
      have hw23 : w * 2 ^ 23 = ((m * 2 ^ (e + 23).toNat : ℤ) : ℚ) := by
        push_cast
        rw [← zpow_natCast (2 : ℚ) (e + 23).toNat, Int.toNat_of_nonneg (by omega),
          hwe, ← zpow_natCast (2 : ℚ) 23, mul_assoc, ← zpow_add₀ (two_ne_zero)]
        norm_num
      set k : ℤ := m * 2 ^ (e + 23).toNat with hkdef
      have hwk : w = (k : ℚ) / 2 ^ 23 := by
        rw [eq_div_iff (by positivity)]
        exact hw23
      have hkne : k ≠ 8388609 := by
        intro hh
        apply hne
        rw [hwk, hh]
        norm_num
      have hdist : |(10000001 / 10000000 : ℚ) * 2 ^ 23
          - rne ((10000001 / 10000000 : ℚ) * 2 ^ 23)| < 1 / 2 := by
        rw [rne_x0]
        refine abs_lt.mpr ⟨by push_cast; norm_num, by push_cast; norm_num⟩
      have hstrict := rne_strict ((10000001 / 10000000 : ℚ) * 2 ^ 23) hdist k
        (by rw [rne_x0]; exact hkne)
      rw [rne_x0] at hstrict
      have hq : (10000001 / 10000000 : ℚ) - (1 + 1 / 2 ^ 23)
          = ((10000001 / 10000000 : ℚ) * 2 ^ 23 - (8388609 : ℤ)) / 2 ^ 23 := by
        push_cast
        ring
      have hw2 : (10000001 / 10000000 : ℚ) - w
          = ((10000001 / 10000000 : ℚ) * 2 ^ 23 - (k : ℚ)) / 2 ^ 23 := by
        rw [hwk]
        ring
      rw [hq, hw2, abs_div, abs_div, abs_of_pos (show (0:ℚ) < 2 ^ 23 by positivity)]
      exact (div_lt_div_iff_of_pos_right (by positivity)).mpr hstrict
    · -- w has magnitude at most 1
      have he2 : e ≤ -24 := by omega
      have hwle : w ≤ 1 := by
        calc w ≤ |w| := le_abs_self w
        _ = |(m : ℚ)| * |(2 : ℚ) ^ e| := by rw [hwe, abs_mul]
        _ = |(m : ℚ)| * (2 : ℚ) ^ e := by
            rw [abs_of_pos (show (0:ℚ) < 2 ^ e by positivity)]
        _ ≤ 2 ^ 24 * (2 : ℚ) ^ e :=
            mul_le_mul_of_nonneg_right hmq (by positivity)
        _ = (2 : ℚ) ^ (24 : ℤ) * (2 : ℚ) ^ e := by norm_num
        _ ≤ (2 : ℚ) ^ (24 : ℤ) * (2 : ℚ) ^ (-24 : ℤ) :=
            mul_le_mul_of_nonneg_left (zpow_le_zpow_right₀ one_le_two he2) (by positivity)
        _ = 1 := by
            rw [← zpow_add₀ (two_ne_zero)]
            norm_num
      have habs1 : |(10000001 / 10000000 : ℚ) - (1 + 1 / 2 ^ 23)|
          = (1 + 1 / 2 ^ 23) - (10000001 / 10000000 : ℚ) := by
        rw [abs_of_neg (by norm_num)]
        ring
      have h2 := le_abs_self ((10000001 / 10000000 : ℚ) - w)
      rw [habs1]
      have : (1 + 1 / 2 ^ 23 : ℚ) - (10000001 / 10000000 : ℚ) < 1 / 10 ^ 7 := by norm_num
      linarith

theorem fas_lit : floatsAlmostSame (1 + 1 / 2 ^ 23) 1 float_epsilon = false := by
  rw [floatsAlmostSame, float_epsilon]
  have habs : |(1 + 1 / 2 ^ 23 : ℚ) - 1| = 1 / 2 ^ 23 := by
    rw [show (1 + 1 / 2 ^ 23 : ℚ) - 1 = 1 / 2 ^ 23 from by ring]
    exact abs_of_pos (by norm_num)
  rw [habs]
  exact decide_eq_false (lt_irrefl _)

/-- Counterexample to claim C8: the binary32 value of the literal
`1.0000001` is `1 + 2 ^ (-23)` (proved the nearest representable in
`lit1p_nearest`, computed by the rounding model in `lit1p`), so its
distance to `1.0f` is exactly FLT_EPSILON, not below it, and
`TestEqual(1.0000001f, 1.0f)` returns false and sets the failed flag —
it does not pass. -/
theorem spec_c8_cex :
    toFloat32unit (10000001 / 10000000) = 1 + 1 / 2 ^ 23
    ∧ (TestEqualFloat ["c"] 0 (toFloat32unit (10000001 / 10000000)) (toFloat32unit 1) initRun).1
        = false
    ∧ (TestEqualFloat ["c"] 0 (toFloat32unit (10000001 / 10000000)) (toFloat32unit 1)
        initRun).2.failed = true := by
  refine ⟨lit1p, ?_, ?_⟩
  · rw [lit1p, lit1, TestEqualFloat, fas_lit]
    simp
  · rw [lit1p, lit1, TestEqualFloat, fas_lit]
    simp

/-- Claim C8, amended: floating-point `TestEqual` uses approximate
equality `|a - b| < epsilon` with the fixed epsilon `2 ^ (-23)`
(FLT_EPSILON), and `TestEqual(1.1f, 1.0f)` fails; but
`TestEqual(1.0000001f, 1.0f)` also fails rather than passes, because the
literal `1.0000001` rounds to the binary32 value `1 + 2 ^ (-23)`, making
the absolute difference exactly epsilon, which the strict `<` rejects.
The last conjunct covers every float within `0.01` of the literal `1.1`,
so it holds for `1.1f` without fixing its exact rounding. -/
theorem spec_c8_amended :
    (∀ (names : List String) (cur : Int) (a b : ℚ) (r : RunState),
        (TestEqualFloat names cur a b r).1 = floatsAlmostSame a b float_epsilon
        ∧ (TestEqualFloat names cur a b r).2.failed
            = (r.failed || !(floatsAlmostSame a b float_epsilon)))
    ∧ float_epsilon = 1 / 2 ^ 23
    ∧ |toFloat32unit (10000001 / 10000000) - toFloat32unit 1| = float_epsilon
    ∧ floatsAlmostSame (toFloat32unit (10000001 / 10000000)) (toFloat32unit 1) float_epsilon
        = false
    ∧ (∀ w : ℚ, |w - 11 / 10| ≤ 1 / 100 →
        floatsAlmostSame w (toFloat32unit 1) float_epsilon = false) := by
  refine ⟨?_, rfl, ?_, ?_, ?_⟩
  · intro names cur a b r
    rw [TestEqualFloat]
    split
    next h =>
      rw [h]
      simp
    next h =>
      rw [Bool.not_eq_true] at h
      rw [h]
      simp
  · rw [lit1p, lit1, float_epsilon]
    rw [show (1 + 1 / 2 ^ 23 : ℚ) - 1 = 1 / 2 ^ 23 from by ring]
    exact abs_of_pos (by norm_num)
  · rw [lit1p, lit1]
    exact fas_lit
  · intro w hw
    rw [lit1, floatsAlmostSame, float_epsilon]
    apply decide_eq_false
    intro hlt
    have h1 := abs_sub_le ((11 / 10 : ℚ)) w 1
    have h2 : |(11 / 10 : ℚ) - 1| = 1 / 10 := by
      rw [show (11 / 10 : ℚ) - 1 = 1 / 10 from by ring]
      exact abs_of_pos (by norm_num)
    have h3 := abs_sub_comm ((11 / 10 : ℚ)) w
    linarith

/-- Witness for the amended C8, instantiating its quantified conjunct at
the rational `11/10` itself. -/
theorem spec_c8_witness :
    floatsAlmostSame (11 / 10) (toFloat32unit 1) float_epsilon = false
    ∧ |(11 / 10 : ℚ) - 11 / 10| ≤ 1 / 100 :=
  ⟨spec_c8_amended.2.2.2.2 (11 / 10) (by norm_num), by norm_num⟩
